import Mathlib

set_option maxRecDepth 10000

/-!
# Verification of the bulk email verifier (`email-verifier.js`)

Shallow embedding of the script's data model and operations.

Modelling conventions:
* JS strings are Lean `String`s; `String.toLowerCase()` and `String.trim()`
  are embedded as `lowerStr` and `trimStr`, implemented directly over the
  underlying character list so the kernel can evaluate them.
* The filesystem visible to the script (`output/valid.json`,
  `output/invalid.json`, `output/task-info.json`) is a record of three
  optional parsed values; `none` means the file does not exist.
* The external HTTP service is an oracle: a trace of responses for the
  resume-time probe and, for every batch index, an optional create-task
  response together with a trace of poll responses.  A polling loop is
  embedded as a function of the finite trace of responses the service
  produces within the loop's time window; exhausting the trace is exactly
  the loop's timeout (`Date.now() - startTime >= maxWaitTime`).
* Concurrency does not arise: the script is a single `async` chain whose
  awaits are sequential, so the whole run is a pure function of its inputs.
-/

namespace EmailVerifier

/-! ## JS string primitives -/

/-- The characters matched by `\s` in a JS regex and removed by
`String.prototype.trim` (restricted to the ASCII range, which is all the
embedding ever feeds it). -/
def jsWhitespace (c : Char) : Bool :=
  c = ' ' || c = '\t' || c = '\n' || c = '\r' || c.toNat = 11 || c.toNat = 12

/-- `String.prototype.toLowerCase` (ASCII). -/
def lowerStr (s : String) : String := ⟨s.data.map Char.toLower⟩

/-- `String.prototype.trim`: strip leading and trailing whitespace. -/
def trimStr (s : String) : String :=
  ⟨((s.data.dropWhile jsWhitespace).reverse.dropWhile jsWhitespace).reverse⟩

/-! ## Leads and verdicts -/

/-- An input record from `input/data.json`.  Only the `email` field is ever
inspected by the script; the remaining passthrough fields never influence
control flow and are omitted. -/
structure Lead where
  email : String
deriving DecidableEq, Repr

/-- A per-email verdict inside a completed task's `results` object.  Each
field is `none` when absent from the JSON object; the `status` label and
`overall_score` are only interpolated into log lines and are omitted. -/
structure VerificationResult where
  is_deliverable : Option Bool := none
  is_valid_syntax : Option Bool := none
  is_disposable : Option Bool := none
  is_spamtrap : Option Bool := none
  is_disabled : Option Bool := none
  is_safe_to_send : Option Bool := none
deriving DecidableEq, Repr

/-- `isEmailValid` (lines 309-325): a JS `x !== false` test on a possibly
absent field passes for `undefined` and `true`; `x !== true` passes for
`undefined` and `false`. -/
def isEmailValid (result : VerificationResult) : Bool :=
  let isDeliverable := result.is_deliverable ≠ some false
  let hasValidSyntax := result.is_valid_syntax ≠ some false
  let isNotDisposable := result.is_disposable ≠ some true
  let isNotSpamtrap := result.is_spamtrap ≠ some true
  let isNotDisabled := result.is_disabled ≠ some true
  let isSafeToSend := result.is_safe_to_send ≠ some false
  isDeliverable && hasValidSyntax && isNotDisposable && isNotSpamtrap &&
    isNotDisabled && isSafeToSend

/-! ## Local format check and deduplication -/

/-- A character admitted by the class `[^\s@]`. -/
def okChar (c : Char) : Bool := !(c = '@' || jsWhitespace c)

/-- The domain part matches `[^\s@]+\.[^\s@]+$` iff some `'.'` occurs with at
least one character before it and one after it (the class `[^\s@]` itself
admits `'.'`, so the surrounding runs may contain further dots). -/
def hasInnerDot (cs : List Char) : Bool := ((cs.drop 1).dropLast).contains '.'

/-- `isValidEmailFormat` (lines 73-76): the test
`/^[^\s@]+@[^\s@]+\.[^\s@]+$/.test(email)`.  Because `[^\s@]` excludes `'@'`,
the leading run is exactly the maximal prefix of admitted characters, which
must be nonempty and be followed by `'@'`; the rest must consist of admitted
characters and decompose around an inner dot. -/
def isValidEmailFormat (email : String) : Bool :=
  let cs := email.data
  let localRun := cs.takeWhile okChar
  match cs.drop localRun.length with
  | '@' :: domain =>
      !localRun.isEmpty && domain.all okChar && hasInnerDot domain
  | _ => false

/-- Result record of `cleanEmailList`.  `duplicateCount` is the JS number
`emailList.length - validEmails.length - invalidEmails.length`, embedded as
an `Int`. -/
structure CleanResult where
  validEmails : List String
  invalidCount : Nat
  duplicateCount : Int
  invalidEmails : List String
deriving DecidableEq, Repr

/-- The loop body of `cleanEmailList` (lines 84-95): `seen` is the set of
normalized keys already kept.  Returns the kept list and the rejected list. -/
def cleanGo : List String → List String → List String × List String
  | [], _ => ([], [])
  | email :: rest, seen =>
      let lowerEmail := trimStr (lowerStr email)
      if !isValidEmailFormat lowerEmail then
        let (v, i) := cleanGo rest seen
        (v, email :: i)
      else if seen.contains lowerEmail then
        cleanGo rest seen
      else
        let (v, i) := cleanGo rest (lowerEmail :: seen)
        (email :: v, i)

/-- `cleanEmailList` (lines 79-104). -/
def cleanEmailList (emailList : List String) : CleanResult :=
  let (validEmails, invalidEmails) := cleanGo emailList []
  { validEmails := validEmails
    invalidCount := invalidEmails.length
    duplicateCount :=
      (emailList.length : Int) - validEmails.length - invalidEmails.length
    invalidEmails := invalidEmails }

/-! ## Polling -/

/-- The body of a successful `GET get-result-bulk-verification-task` response:
its `status` and (for completed tasks) the `results` object as an ordered
association list, matching `Object.entries` iteration order. -/
structure PollData where
  status : String
  results : List (String × VerificationResult) := []
deriving DecidableEq, Repr

/-- One observation made by an iteration of the polling loop: either the
`axios.get` throws (transport error) or a response body arrives. -/
inductive PollResponse where
  | transportError
  | ok (data : PollData)
deriving DecidableEq, Repr

/-- `pollTaskResults` (lines 170-214), as a function of the finite trace of
observations available inside the `maxWaitTime` window.  An exhausted trace
is the loop's timeout (`return null` at line 213); a transport error is the
`catch` (`return null` at line 208); terminal statuses mirror lines 193-202.
Non-terminal statuses sleep `POLLING_INTERVAL_MS` and continue. -/
def pollTaskResults : List PollResponse → Option PollData
  | [] => none
  | PollResponse.transportError :: _ => none
  | PollResponse.ok data :: rest =>
      if data.status = "completed" then some data
      else if data.status = "error" ∨ data.status = "file_not_found" then none
      else pollTaskResults rest

/-! ## Durable state -/

/-- `output/task-info.json` (lines 251-262).  The `createdAt` timestamp is
write-only and not modelled. -/
structure TaskCheckpoint where
  taskId : String
  batchIndex : Nat
  totalBatches : Nat
  emailCount : Nat
  emails : List String
  status : String
deriving DecidableEq, Repr

/-- `saveTaskInfo` (lines 251-262) builds the checkpoint record; the write
itself is an update of `Disk.taskInfoFile`. -/
def saveTaskInfo (taskId : String) (emailList : List String)
    (batchIndex totalBatches : Nat) : TaskCheckpoint :=
  { taskId := taskId
    batchIndex := batchIndex
    totalBatches := totalBatches
    emailCount := emailList.length
    emails := emailList
    status := "processing" }

/-- The three files the script owns, as parsed values; `none` means the file
does not exist on disk. -/
structure Disk where
  validFile : Option (List Lead) := none
  invalidFile : Option (List Lead) := none
  taskInfoFile : Option TaskCheckpoint := none
deriving DecidableEq, Repr

/-- `appendToJsonFile` (lines 328-345): an absent file becomes `[entry]`, an
existing file is read, pushed to and rewritten. -/
def appendToJsonFile (store : Option (List Lead)) (entry : Lead) : List Lead :=
  match store with
  | none => [entry]
  | some existingData => existingData ++ [entry]

/-- `getAlreadyVerifiedEmails` (lines 222-248): the lowercased emails of every
record in either output store. -/
def getAlreadyVerifiedEmails (disk : Disk) : List String :=
  ((disk.validFile.getD []) ++ (disk.invalidFile.getD [])).map
    (fun item => lowerStr item.email)

/-! ## The lead map (a JS `Map`) -/

/-- A JS `Map<string, Lead>` as an ordered association list. -/
abbrev LeadMap := List (String × Lead)

/-- `Map.prototype.set`: update the existing entry in place, else append. -/
def mapSet (m : LeadMap) (k : String) (v : Lead) : LeadMap :=
  if m.any (fun p => p.1 = k) then
    m.map (fun p => if p.1 = k then (k, v) else p)
  else
    m ++ [(k, v)]

/-- `Map.prototype.get`, as an optional lookup. -/
def mapGet (m : LeadMap) (k : String) : Option Lead :=
  (m.find? (fun p => p.1 = k)).map (fun p => p.2)

/-- The lead map built at lines 446-449 from the not-yet-verified leads. -/
def buildMainLeadMap (unverifiedLeads : List Lead) : LeadMap :=
  unverifiedLeads.foldl (fun m lead => mapSet m (lowerStr lead.email) lead) []

/-- The lead map the resume path rebuilds from the checkpoint's stored email
list (lines 377-385): each stored email is looked up, by lowercased email,
against the full input lead list. -/
def buildResumeLeadMap (emails : List String) (leads : List Lead) : LeadMap :=
  emails.foldl
    (fun m email =>
      match leads.find? (fun l => lowerStr l.email = lowerStr email) with
      | some lead => mapSet m (lowerStr email) lead
      | none => m)
    []

/-! ## Classification -/

/-- The loop body of `saveResults` (lines 282-303): a key absent from the
lead map is skipped; otherwise the full lead record is appended to the valid
or invalid store as `isEmailValid` decides. -/
def saveOne (leadMap : LeadMap) (disk : Disk) (entry : String × VerificationResult) : Disk :=
  match mapGet leadMap (lowerStr entry.1) with
  | none => disk
  | some leadItem =>
      if isEmailValid entry.2 then
        { disk with validFile := some (appendToJsonFile disk.validFile leadItem) }
      else
        { disk with invalidFile := some (appendToJsonFile disk.invalidFile leadItem) }

/-- `saveResults` (lines 278-306): walk the `results` entries in order.  The
returned counters only feed log lines and are not modelled. -/
def saveResults (results : List (String × VerificationResult)) (leadMap : LeadMap)
    (disk : Disk) : Disk :=
  results.foldl (saveOne leadMap) disk

/-! ## Batching -/

/-- `BATCH_SIZE` (line 7). -/
def BATCH_SIZE : Nat := 100

/-- Structurally recursive worker for `chunkBatches`; the fuel only serves
termination and is immaterial once it is at least the list's length. -/
def chunkGo : Nat → List String → List (List String)
  | _, [] => []
  | 0, _ :: _ => []
  | fuel + 1, a :: t =>
      (a :: t).take BATCH_SIZE :: chunkGo fuel ((a :: t).drop BATCH_SIZE)

/-- The batching loop at lines 455-458:
`for (i = 0; i < len; i += BATCH_SIZE) batches.push(slice(i, i + BATCH_SIZE))`. -/
def chunkBatches (l : List String) : List (List String) := chunkGo l.length l

/-! ## The external service oracle -/

/-- A successful `create-bulk-verification-task` response (the fields the
script reads; the counters only feed log lines and running totals). -/
structure CreateTaskResponse where
  task_id : String
  count_duplicates_removed : Nat := 0
  count_rejected_emails : Nat := 0
deriving DecidableEq, Repr

/-- The service's behaviour during one run: the probe trace answers the
resume-time `pollTaskResults(taskId, 30000)` call; per batch index,
`createResp` is the outcome of `createBulkTask` (`none` covers both a thrown
request and a non-success response, which the script treats alike) and
`pollTrace` is the trace seen by that batch's `pollTaskResults` call. -/
structure ApiOracle where
  probeTrace : List PollResponse := []
  createResp : Nat → Option CreateTaskResponse := fun _ => none
  pollTrace : Nat → List PollResponse := fun _ => []

/-- One HTTP request family issued by the script.  `createTask` records the
actual payload posted (the locally cleaned list); `pollResults` records one
invocation of the polling loop (one or more `GET`s to the results endpoint);
`balance` is the `GET` to the check-balance endpoint. -/
inductive ApiCall where
  | balance
  | createTask (emails : List String)
  | pollResults (taskId : String)
deriving DecidableEq, Repr

/-- The `createTask` payloads of a call log, in order. -/
def createPayloads (calls : List ApiCall) : List (List String) :=
  calls.filterMap
    (fun c => match c with
      | ApiCall.createTask es => some es
      | _ => none)

/-! ## The run -/

/-- How `processEmails` returned: the still-processing abort at line 411, the
all-verified early return at line 440, or the fall-through completion. -/
inductive RunOutcome where
  | abortedStillProcessing
  | doneAllVerified
  | doneComplete
deriving DecidableEq, Repr

structure RunResult where
  disk : Disk
  calls : List ApiCall
  outcome : RunOutcome
deriving DecidableEq, Repr

/-- Outcome of the resume block: abort the run, or proceed into the main
phase with a starting batch index. -/
inductive ResumeOutcome where
  | abort
  | proceed (resumeFromBatch : Nat)
deriving DecidableEq, Repr

/-- The resume block of `processEmails` (lines 352-418).  With no checkpoint
the block is skipped and `resumeFromBatch` stays `0`.  Otherwise the stored
task is probed with a 30-second budget; a completed probe classifies the
stored results through the checkpoint's email list, deletes the checkpoint
and advances the start index; a null probe (error, not-found, transport
failure or timeout) deletes the checkpoint and keeps `resumeFromBatch` at
the checkpoint's `batchIndex` (line 366 is never undone on this path); the
remaining branch (a non-null probe whose status is not `"completed"`) aborts
the run with the checkpoint intact. -/
def resumePhase (leads : List Lead) (probeTrace : List PollResponse)
    (disk : Disk) : Disk × List ApiCall × ResumeOutcome :=
  match disk.taskInfoFile with
  | none => (disk, [], ResumeOutcome.proceed 0)
  | some info =>
      let calls := [ApiCall.pollResults info.taskId]
      match pollTaskResults probeTrace with
      | some previousResults =>
          if previousResults.status = "completed" then
            let leadMap := buildResumeLeadMap info.emails leads
            let d1 := saveResults previousResults.results leadMap disk
            ({ d1 with taskInfoFile := none }, calls,
              ResumeOutcome.proceed (info.batchIndex + 1))
          else
            (disk, calls, ResumeOutcome.abort)
      | none =>
          ({ disk with taskInfoFile := none }, calls,
            ResumeOutcome.proceed info.batchIndex)

/-- The leads whose lowercased email is in neither output store (line 428). -/
def unverifiedLeadsOf (leads : List Lead) (disk : Disk) : List Lead :=
  leads.filter
    (fun lead => !((getAlreadyVerifiedEmails disk).contains (lowerStr lead.email)))

/-- `emailsToVerify` (line 452). -/
def emailsToVerifyOf (leads : List Lead) (disk : Disk) : List String :=
  (unverifiedLeadsOf leads disk).map (fun lead => lead.email)

/-- The batch loop (lines 472-518), iterating over the batches from the
resume index on, carrying the absolute batch index.  Each iteration posts
the cleaned batch (`createBulkTask`); on failure it logs and continues.  On
success it overwrites the checkpoint (`saveTaskInfo`), then polls; a null
poll logs and continues, leaving the checkpoint in place; otherwise the
results are classified into the stores.  The checkpoint is never removed
inside the loop. -/
def batchLoop (oracle : ApiOracle) (leadMap : LeadMap) (totalBatches : Nat) :
    List (List String) → Nat → Disk → Disk × List ApiCall
  | [], _, disk => (disk, [])
  | batch :: rest, batchIndex, disk =>
      let cleaned := cleanEmailList batch
      let createCall := ApiCall.createTask cleaned.validEmails
      match oracle.createResp batchIndex with
      | none =>
          let (d', calls') := batchLoop oracle leadMap totalBatches rest (batchIndex + 1) disk
          (d', createCall :: calls')
      | some taskResult =>
          let d1 := { disk with
            taskInfoFile := some (saveTaskInfo taskResult.task_id batch batchIndex totalBatches) }
          let pollCall := ApiCall.pollResults taskResult.task_id
          match pollTaskResults (oracle.pollTrace batchIndex) with
          | none =>
              let (d', calls') := batchLoop oracle leadMap totalBatches rest (batchIndex + 1) d1
              (d', createCall :: pollCall :: calls')
          | some results =>
              let d2 := saveResults results.results leadMap d1
              let (d', calls') := batchLoop oracle leadMap totalBatches rest (batchIndex + 1) d2
              (d', createCall :: pollCall :: calls')

/-- `processEmails` (lines 348-539) as a pure function of the input leads,
the service oracle and the initial disk.  After the resume block the script
makes the unconditional best-effort balance call (line 421), filters out
already-verified leads, returns early when nothing is pending, and otherwise
partitions the pending emails into batches and runs the batch loop from the
resume index; the final clean-up (lines 536-538) removes any checkpoint. -/
def processEmails (leads : List Lead) (oracle : ApiOracle) (disk0 : Disk) :
    RunResult :=
  match resumePhase leads oracle.probeTrace disk0 with
  | (d1, resumeCalls, ResumeOutcome.abort) =>
      { disk := d1, calls := resumeCalls, outcome := RunOutcome.abortedStillProcessing }
  | (d1, resumeCalls, ResumeOutcome.proceed resumeFromBatch) =>
      let balanceCalls := [ApiCall.balance]
      let unverifiedLeads := unverifiedLeadsOf leads d1
      if unverifiedLeads.isEmpty then
        { disk := d1, calls := resumeCalls ++ balanceCalls,
          outcome := RunOutcome.doneAllVerified }
      else
        let leadMap := buildMainLeadMap unverifiedLeads
        let emailsToVerify := emailsToVerifyOf leads d1
        let batches := chunkBatches emailsToVerify
        let (d2, loopCalls) :=
          batchLoop oracle leadMap batches.length (batches.drop resumeFromBatch)
            resumeFromBatch d1
        { disk := { d2 with taskInfoFile := none }
          calls := resumeCalls ++ balanceCalls ++ loopCalls
          outcome := RunOutcome.doneComplete }

/-! ## Spec-side comparands and invariants -/

/-- The normalized identity key of an email: lowercased, trimmed (the form
`cleanEmailList` tests and deduplicates on). -/
def normKey (email : String) : String := trimStr (lowerStr email)

/-- Spec-side comparand for the deduplication filter, following §4.1: "among
syntactically valid ones, keep only the first occurrence per normalized key;
later duplicates are dropped".  Keeps the head and discards every later
element with the same key.  Structured deliberately unlike the source's
seen-set loop so that agreement is a real refinement check; the fuel only
serves termination. -/
def keepFirstByKey : Nat → List String → List String
  | _, [] => []
  | 0, _ :: _ => []
  | fuel + 1, e :: rest =>
      e :: keepFirstByKey fuel (rest.filter (fun x => normKey x ≠ normKey e))

/-- `keepFirstByKey` with enough fuel. -/
def keepFirstSpec (l : List String) : List String := keepFirstByKey l.length l

/-- The classification-partition invariant of §8: no lowercased email occurs
twice across the two output stores (`getAlreadyVerifiedEmails` is exactly
the combined key list). -/
def StoreOk (disk : Disk) : Prop := (getAlreadyVerifiedEmails disk).Nodup

/-- A well-behaved service for one run: any completed poll for batch `j`
reports results keyed (up to lowercasing) by pairwise distinct emails of the
batch that was submitted as task `j`. -/
def SaneOracle (leads : List Lead) (disk : Disk) (oracle : ApiOracle) : Prop :=
  ∀ j pd, j < (chunkBatches (emailsToVerifyOf leads disk)).length →
    pollTaskResults (oracle.pollTrace j) = some pd →
    ((pd.results.map (fun p => lowerStr p.1)).Nodup ∧
     ∀ p ∈ pd.results,
       lowerStr p.1 ∈ ((chunkBatches (emailsToVerifyOf leads disk)).getD j []).map lowerStr)

/-- A sequence of complete runs of the script against the same input file. -/
def runSequence (leads : List Lead) : List ApiOracle → Disk → Disk
  | [], disk => disk
  | oracle :: rest, disk => runSequence leads rest (processEmails leads oracle disk).disk

/-- Every run of the sequence faces a well-behaved service (each oracle is
judged against the disk state its run actually starts from). -/
def SaneAll (leads : List Lead) : List ApiOracle → Disk → Prop
  | [], _ => True
  | oracle :: rest, disk =>
      SaneOracle leads disk oracle ∧
      SaneAll leads rest (processEmails leads oracle disk).disk

/-! ## Concrete scenarios

One small, fully explicit input per claim that needs a counterexample or a
witness, so that the relevant behaviours can be evaluated by the kernel. -/

/-- C1 scenario: a checkpoint for task `t1` over `a@b.cd`, whose probe
observes `processing` on every poll inside the 30-second window. -/
def c1Leads : List Lead := [⟨"a@b.cd"⟩]

def c1Disk : Disk :=
  { taskInfoFile := some ⟨"t1", 0, 1, 1, ["a@b.cd"], "processing"⟩ }

def c1Oracle : ApiOracle :=
  { probeTrace := List.replicate 6 (PollResponse.ok ⟨"processing", []⟩)
    createResp := fun _ => some ⟨"t2", 0, 0⟩
    pollTrace := fun _ => [PollResponse.ok ⟨"completed", [("a@b.cd", {})]⟩] }

/-- C2 witness scenario: a checkpoint for batch 0 whose probe immediately
reports completion; a second lead remains but the loop starts past it. -/
def c2Leads : List Lead := [⟨"a@b.cd"⟩, ⟨"c@d.ef"⟩]

def c2Info : TaskCheckpoint := ⟨"t1", 0, 1, 1, ["a@b.cd"], "processing"⟩

def c2Disk : Disk := { taskInfoFile := some c2Info }

def c2Data : PollData := ⟨"completed", [("a@b.cd", {})]⟩

def c2Oracle : ApiOracle := { probeTrace := [PollResponse.ok c2Data] }

/-- C3 scenario: a checkpoint recorded at batch index 1 whose probe hits a
transport error; one fresh pending lead exists. -/
def c3Leads : List Lead := [⟨"a@b.cd"⟩]

def c3Info : TaskCheckpoint := ⟨"t1", 1, 2, 1, ["x@y.zz"], "processing"⟩

def c3Disk : Disk := { taskInfoFile := some c3Info }

def c3Oracle : ApiOracle :=
  { probeTrace := [PollResponse.transportError]
    createResp := fun _ => some ⟨"t2", 0, 0⟩
    pollTrace := fun _ => [PollResponse.ok ⟨"completed", [("a@b.cd", {})]⟩] }

/-- C4 scenario: no checkpoint; batch 0 submits fine but its poll dies. -/
def c4Leads : List Lead := [⟨"a@b.cd"⟩]

def c4Oracle : ApiOracle :=
  { createResp := fun _ => some ⟨"t1", 0, 0⟩
    pollTrace := fun _ => [PollResponse.transportError] }

/-- C4 witness scenario for the batch-loop conjunct. -/
def c4wOracle : ApiOracle :=
  { createResp := fun _ => some ⟨"t9", 0, 0⟩
    pollTrace := fun _ => [PollResponse.transportError] }

/-- C5 counterexample scenario: 101 leads whose emails are pairwise distinct
except that `dup@x.yz` occurs at positions 0 and 100, so its two copies land
in different batches; the service behaves perfectly, answering each batch
with exactly the submitted emails, all passing verdicts. -/
def dupEmail : String := "dup@x.yz"

def fillerLeads : List Lead :=
  (List.range 99).map (fun i => ⟨"u" ++ Nat.repr i ++ "@x.yz"⟩)

def c5Leads : List Lead := ⟨dupEmail⟩ :: fillerLeads ++ [⟨dupEmail⟩]

def c5Batches : List (List String) :=
  chunkBatches (c5Leads.map (fun l => l.email))

def c5Oracle : ApiOracle :=
  { createResp := fun j => some ⟨"t" ++ Nat.repr j, 0, 0⟩
    pollTrace := fun j =>
      [PollResponse.ok ⟨"completed", (c5Batches.getD j []).map (fun e => (e, {}))⟩] }

/-- C5 witness scenario: one lead, one run, a sane service. -/
def c5wLeads : List Lead := [⟨"a@b.cd"⟩]

def c5wData : PollData := ⟨"completed", [("a@b.cd", {})]⟩

def c5wOracle : ApiOracle :=
  { createResp := fun _ => some ⟨"t1", 0, 0⟩
    pollTrace := fun _ => [PollResponse.ok c5wData] }

/-- C6 witness verdict: explicit syntax failure, everything else passing. -/
def c6Verdict : VerificationResult :=
  { is_valid_syntax := some false, is_deliverable := some true }

/-- C8 scenario: the single lead is already in the valid store. -/
def c8Leads : List Lead := [⟨"a@b.cd"⟩]

def c8Disk : Disk := { validFile := some [⟨"a@b.cd"⟩] }

def c8Oracle : ApiOracle :=
  { createResp := fun _ => some ⟨"t1", 0, 0⟩
    pollTrace := fun _ => [PollResponse.ok ⟨"completed", [("a@b.cd", {})]⟩] }

/-- C9 witness input: 250 pending emails. -/
def c9Emails : List String := List.replicate 250 "e@x.yz"

/-! ## Helper lemmas: polling -/

lemma pollTaskResults_some {rs : List PollResponse} {d : PollData}
    (h : pollTaskResults rs = some d) : d.status = "completed" := by
  induction rs with
  | nil => simp [pollTaskResults] at h
  | cons r rest ih =>
      cases r with
      | transportError => simp [pollTaskResults] at h
      | ok data =>
          by_cases hc : data.status = "completed"
          · simp [pollTaskResults, hc] at h
            rw [← h, hc]
          · by_cases he : data.status = "error" ∨ data.status = "file_not_found"
            · simp [pollTaskResults, hc, he] at h
            · exact ih (by simpa [pollTaskResults, hc, he] using h)

/-! ## Helper lemmas: batching -/

lemma chunkGo_nil (f : Nat) : chunkGo f [] = [] := by
  cases f <;> rfl

lemma chunkGo_congr : ∀ (f₁ f₂ : Nat) (l : List String),
    l.length ≤ f₁ → l.length ≤ f₂ → chunkGo f₁ l = chunkGo f₂ l := by
  intro f₁
  induction f₁ with
  | zero =>
      intro f₂ l h₁ _
      have : l = [] := List.eq_nil_of_length_eq_zero (Nat.le_zero.mp h₁)
      subst this
      simp [chunkGo_nil]
  | succ n ih =>
      intro f₂ l h₁ h₂
      cases l with
      | nil => simp [chunkGo_nil]
      | cons a t =>
          cases f₂ with
          | zero => simp at h₂
          | succ m =>
              have hB : 1 ≤ BATCH_SIZE := by simp [BATCH_SIZE]
              have hlen : ((a :: t).drop BATCH_SIZE).length = t.length + 1 - BATCH_SIZE := by
                simp
              simp only [chunkGo]
              congr 1
              apply ih
              · rw [hlen]; simp at h₁; omega
              · rw [hlen]; simp at h₂; omega

lemma chunkBatches_cons (a : String) (t : List String) :
    chunkBatches (a :: t) =
      (a :: t).take BATCH_SIZE :: chunkBatches ((a :: t).drop BATCH_SIZE) := by
  have hB : 1 ≤ BATCH_SIZE := by simp [BATCH_SIZE]
  show chunkGo (t.length + 1) (a :: t) = _
  simp only [chunkGo]
  congr 1
  apply chunkGo_congr
  · simp; omega
  · exact Nat.le_refl _

lemma chunkBatches_flatten_aux :
    ∀ (n : Nat) (l : List String), l.length ≤ n → (chunkBatches l).flatten = l := by
  intro n
  induction n with
  | zero =>
      intro l h
      have : l = [] := List.eq_nil_of_length_eq_zero (Nat.le_zero.mp h)
      subst this
      simp [chunkBatches, chunkGo_nil]
  | succ n ih =>
      intro l h
      cases l with
      | nil => simp [chunkBatches, chunkGo_nil]
      | cons a t =>
          have hB : 1 ≤ BATCH_SIZE := by simp [BATCH_SIZE]
          rw [chunkBatches_cons]
          simp only [List.flatten_cons]
          rw [ih ((a :: t).drop BATCH_SIZE) (by simp at h ⊢; omega)]
          exact List.take_append_drop _ _

lemma chunkBatches_flatten (l : List String) : (chunkBatches l).flatten = l :=
  chunkBatches_flatten_aux l.length l (Nat.le_refl _)

/-! ## Helper lemmas: the deduplication filter -/

lemma keepFirstByKey_nil (f : Nat) : keepFirstByKey f [] = [] := by
  cases f <;> rfl

lemma keepFirstByKey_congr : ∀ (f₁ f₂ : Nat) (l : List String),
    l.length ≤ f₁ → l.length ≤ f₂ → keepFirstByKey f₁ l = keepFirstByKey f₂ l := by
  intro f₁
  induction f₁ with
  | zero =>
      intro f₂ l h₁ _
      have : l = [] := List.eq_nil_of_length_eq_zero (Nat.le_zero.mp h₁)
      subst this
      simp [keepFirstByKey_nil]
  | succ n ih =>
      intro f₂ l h₁ h₂
      cases l with
      | nil => simp [keepFirstByKey_nil]
      | cons e rest =>
          cases f₂ with
          | zero => simp at h₂
          | succ m =>
              have hf : (rest.filter (fun x => normKey x ≠ normKey e)).length ≤ rest.length :=
                List.length_filter_le _ _
              simp only [keepFirstByKey]
              congr 1
              apply ih
              · simp at h₁; omega
              · simp at h₂; omega

lemma keepFirstSpec_cons (e : String) (rest : List String) :
    keepFirstSpec (e :: rest) =
      e :: keepFirstSpec (rest.filter (fun x => normKey x ≠ normKey e)) := by
  have hf : (rest.filter (fun x => normKey x ≠ normKey e)).length ≤ rest.length :=
    List.length_filter_le _ _
  show keepFirstByKey (rest.length + 1) (e :: rest) = _
  simp only [keepFirstByKey]
  congr 1
  apply keepFirstByKey_congr
  · exact hf
  · exact Nat.le_refl _

lemma cleanGo_fst_sublist : ∀ (l seen : List String), ((cleanGo l seen).1).Sublist l := by
  intro l
  induction l with
  | nil => intro seen; simp [cleanGo]
  | cons email rest ih =>
      intro seen
      by_cases hv : isValidEmailFormat (trimStr (lowerStr email)) = true
      · by_cases hs : trimStr (lowerStr email) ∈ seen
        · have : (cleanGo (email :: rest) seen).1 = (cleanGo rest seen).1 := by
            simp [cleanGo, hv, hs]
          rw [this]
          exact (ih seen).trans (List.sublist_cons_self _ _)
        · have : (cleanGo (email :: rest) seen).1 =
              email :: (cleanGo rest (trimStr (lowerStr email) :: seen)).1 := by
            simp [cleanGo, hv, hs]
          rw [this]
          exact (ih _).cons₂ email
      · simp only [Bool.not_eq_true] at hv
        have : (cleanGo (email :: rest) seen).1 = (cleanGo rest seen).1 := by
          simp [cleanGo, hv]
        rw [this]
        exact (ih seen).trans (List.sublist_cons_self _ _)

lemma cleanGo_snd : ∀ (l seen : List String),
    (cleanGo l seen).2 = l.filter (fun e => !isValidEmailFormat (normKey e)) := by
  intro l
  induction l with
  | nil => intro seen; simp [cleanGo]
  | cons email rest ih =>
      intro seen
      by_cases hv : isValidEmailFormat (trimStr (lowerStr email)) = true
      · by_cases hs : trimStr (lowerStr email) ∈ seen
        · simp [cleanGo, hv, hs, normKey, ih]
        · simp [cleanGo, hv, hs, normKey, ih]
      · simp only [Bool.not_eq_true] at hv
        simp [cleanGo, hv, normKey, ih]

lemma cleanGo_fst : ∀ (l seen : List String),
    (cleanGo l seen).1 =
      keepFirstSpec ((l.filter (fun e => isValidEmailFormat (normKey e))).filter
        (fun e => !seen.contains (normKey e))) := by
  intro l
  induction l with
  | nil => intro seen; simp [cleanGo, keepFirstSpec, keepFirstByKey_nil]
  | cons email rest ih =>
      intro seen
      by_cases hv : isValidEmailFormat (trimStr (lowerStr email)) = true
      · by_cases hs : trimStr (lowerStr email) ∈ seen
        · have hL : (cleanGo (email :: rest) seen).1 = (cleanGo rest seen).1 := by
            simp [cleanGo, hv, hs]
          rw [hL, ih seen]
          congr 1
          simp [normKey, hv, hs]
        · have hL : (cleanGo (email :: rest) seen).1 =
              email :: (cleanGo rest (trimStr (lowerStr email) :: seen)).1 := by
            simp [cleanGo, hv, hs]
          rw [hL, ih]
          have hR : ((email :: rest).filter (fun e => isValidEmailFormat (normKey e))).filter
              (fun e => !seen.contains (normKey e)) =
              email :: ((rest.filter (fun e => isValidEmailFormat (normKey e))).filter
                (fun e => !seen.contains (normKey e))) := by
            simp [normKey, hv, hs]
          rw [hR, keepFirstSpec_cons]
          congr 1
          rw [List.filter_filter, List.filter_filter, List.filter_filter]
          refine congrArg keepFirstSpec (List.filter_congr ?_)
          intro x hx
          cases hA : normKey x == normKey email <;>
            cases hB : seen.contains (normKey x) <;>
              cases hC : isValidEmailFormat (normKey x) <;>
                simp_all [normKey, List.contains_cons]
      · simp only [Bool.not_eq_true] at hv
        have hL : (cleanGo (email :: rest) seen).1 = (cleanGo rest seen).1 := by
          simp [cleanGo, hv]
        rw [hL, ih seen]
        congr 2
        simp [normKey, hv]

lemma cleanEmailList_validEmails (l : List String) :
    (cleanEmailList l).validEmails =
      keepFirstSpec (l.filter (fun e => isValidEmailFormat (normKey e))) := by
  show (cleanGo l []).1 = _
  rw [cleanGo_fst]
  congr 1
  simp

lemma cleanEmailList_sublist (l : List String) :
    ((cleanEmailList l).validEmails).Sublist l :=
  cleanGo_fst_sublist l []

lemma cleanEmailList_mem {l : List String} {e : String}
    (h : e ∈ (cleanEmailList l).validEmails) : e ∈ l :=
  (cleanEmailList_sublist l).subset h

/-! ## Helper lemmas: classification and the batch loop -/

lemma saveResults_nil (m : LeadMap) (disk : Disk) : saveResults [] m disk = disk := rfl

lemma saveResults_cons (p : String × VerificationResult)
    (rest : List (String × VerificationResult)) (m : LeadMap) (disk : Disk) :
    saveResults (p :: rest) m disk = saveResults rest m (saveOne m disk p) := rfl

lemma saveOne_taskInfo (m : LeadMap) (disk : Disk) (p : String × VerificationResult) :
    (saveOne m disk p).taskInfoFile = disk.taskInfoFile := by
  unfold saveOne
  cases mapGet m (lowerStr p.1) with
  | none => rfl
  | some leadItem =>
      by_cases h : isEmailValid p.2 = true
      · simp [h]
      · simp only [Bool.not_eq_true] at h
        simp [h]

lemma saveResults_taskInfo : ∀ (rs : List (String × VerificationResult))
    (m : LeadMap) (disk : Disk),
    (saveResults rs m disk).taskInfoFile = disk.taskInfoFile := by
  intro rs
  induction rs with
  | nil => intro m disk; rfl
  | cons p rest ih =>
      intro m disk
      rw [saveResults_cons, ih, saveOne_taskInfo]

lemma batchLoop_payloads (oracle : ApiOracle) (leadMap : LeadMap) (total : Nat) :
    ∀ (bs : List (List String)) (i : Nat) (disk : Disk),
      createPayloads (batchLoop oracle leadMap total bs i disk).2 =
        bs.map (fun b => (cleanEmailList b).validEmails) := by
  intro bs
  induction bs with
  | nil => intro i disk; simp [batchLoop, createPayloads]
  | cons b rest ih =>
      intro i disk
      cases hc : oracle.createResp i with
      | none =>
          simp only [batchLoop, hc, createPayloads, List.filterMap_cons, List.map_cons]
          exact congrArg _ (ih _ _)
      | some r =>
          cases hp : pollTaskResults (oracle.pollTrace i) with
          | none =>
              simp only [batchLoop, hc, hp, createPayloads, List.filterMap_cons,
                List.map_cons]
              exact congrArg _ (ih _ _)
          | some results =>
              simp only [batchLoop, hc, hp, createPayloads, List.filterMap_cons,
                List.map_cons]
              exact congrArg _ (ih _ _)

/-! ## Helper lemmas: the resume block and the run -/

lemma resumePhase_none (leads : List Lead) (pt : List PollResponse) {disk : Disk}
    (h : disk.taskInfoFile = none) :
    resumePhase leads pt disk = (disk, [], ResumeOutcome.proceed 0) := by
  unfold resumePhase
  rw [h]

lemma resumePhase_completed (leads : List Lead) (pt : List PollResponse)
    {disk : Disk} {info : TaskCheckpoint} {d : PollData}
    (hinfo : disk.taskInfoFile = some info) (hprobe : pollTaskResults pt = some d) :
    resumePhase leads pt disk =
      ({ saveResults d.results (buildResumeLeadMap info.emails leads) disk with
          taskInfoFile := none },
        [ApiCall.pollResults info.taskId],
        ResumeOutcome.proceed (info.batchIndex + 1)) := by
  unfold resumePhase
  rw [hinfo, hprobe]
  simp [pollTaskResults_some hprobe]

lemma resumePhase_failed (leads : List Lead) (pt : List PollResponse)
    {disk : Disk} {info : TaskCheckpoint}
    (hinfo : disk.taskInfoFile = some info) (hprobe : pollTaskResults pt = none) :
    resumePhase leads pt disk =
      ({ disk with taskInfoFile := none }, [ApiCall.pollResults info.taskId],
        ResumeOutcome.proceed info.batchIndex) := by
  unfold resumePhase
  rw [hinfo, hprobe]

lemma resumePhase_proceed_taskInfo {leads : List Lead} {pt : List PollResponse}
    {disk d1 : Disk} {rc : List ApiCall} {k : Nat}
    (h : resumePhase leads pt disk = (d1, rc, ResumeOutcome.proceed k)) :
    d1.taskInfoFile = none := by
  cases hinfo : disk.taskInfoFile with
  | none =>
      rw [resumePhase_none leads pt hinfo] at h
      cases h
      exact hinfo
  | some info =>
      cases hprobe : pollTaskResults pt with
      | none =>
          rw [resumePhase_failed leads pt hinfo hprobe] at h
          cases h
          rfl
      | some d =>
          rw [resumePhase_completed leads pt hinfo hprobe] at h
          cases h
          rfl

lemma processEmails_proceed {leads : List Lead} {oracle : ApiOracle} {disk0 d1 : Disk}
    {rc : List ApiCall} {k : Nat}
    (h : resumePhase leads oracle.probeTrace disk0 = (d1, rc, ResumeOutcome.proceed k)) :
    processEmails leads oracle disk0 =
      (if (unverifiedLeadsOf leads d1).isEmpty then
        { disk := d1, calls := rc ++ [ApiCall.balance],
          outcome := RunOutcome.doneAllVerified }
      else
        { disk := { (batchLoop oracle (buildMainLeadMap (unverifiedLeadsOf leads d1))
              (chunkBatches (emailsToVerifyOf leads d1)).length
              ((chunkBatches (emailsToVerifyOf leads d1)).drop k) k d1).1 with
            taskInfoFile := none }
          calls := rc ++ [ApiCall.balance] ++
            (batchLoop oracle (buildMainLeadMap (unverifiedLeadsOf leads d1))
              (chunkBatches (emailsToVerifyOf leads d1)).length
              ((chunkBatches (emailsToVerifyOf leads d1)).drop k) k d1).2
          outcome := RunOutcome.doneComplete }) := by
  unfold processEmails
  rw [h]

lemma createPayloads_append (l₁ l₂ : List ApiCall) :
    createPayloads (l₁ ++ l₂) = createPayloads l₁ ++ createPayloads l₂ := by
  simp [createPayloads, List.filterMap_append]

lemma createPayloads_poll (t : String) : createPayloads [ApiCall.pollResults t] = [] := rfl

lemma createPayloads_balance : createPayloads [ApiCall.balance] = [] := rfl

lemma emailsToVerifyOf_nil {leads : List Lead} {disk : Disk}
    (h : (unverifiedLeadsOf leads disk).isEmpty = true) :
    emailsToVerifyOf leads disk = [] := by
  unfold emailsToVerifyOf
  rw [List.isEmpty_iff.mp h]
  rfl

lemma run_payloads {leads : List Lead} {oracle : ApiOracle} {disk0 d1 : Disk}
    {rc : List ApiCall} {k : Nat}
    (h : resumePhase leads oracle.probeTrace disk0 = (d1, rc, ResumeOutcome.proceed k))
    (hrc : createPayloads rc = []) :
    createPayloads (processEmails leads oracle disk0).calls =
      ((chunkBatches (emailsToVerifyOf leads d1)).drop k).map
        (fun b => (cleanEmailList b).validEmails) := by
  rw [processEmails_proceed h]
  by_cases he : (unverifiedLeadsOf leads d1).isEmpty = true
  · rw [if_pos he]
    simp only [createPayloads_append, hrc, createPayloads_balance]
    rw [emailsToVerifyOf_nil he]
    simp [chunkBatches, chunkGo_nil, createPayloads]
  · rw [if_neg he]
    simp only [createPayloads_append, hrc, createPayloads_balance,
      batchLoop_payloads]
    simp [createPayloads]

lemma payload_mem_pending {leads : List Lead} {d1 : Disk} {k : Nat}
    {es : List String} {e : String}
    (hes : es ∈ ((chunkBatches (emailsToVerifyOf leads d1)).drop k).map
      (fun b => (cleanEmailList b).validEmails))
    (he : e ∈ es) :
    (getAlreadyVerifiedEmails d1).contains (lowerStr e) = false := by
  obtain ⟨b, hb, rfl⟩ := List.mem_map.mp hes
  have hb' : b ∈ chunkBatches (emailsToVerifyOf leads d1) := List.mem_of_mem_drop hb
  have heb : e ∈ b := cleanEmailList_mem he
  have hpend : e ∈ emailsToVerifyOf leads d1 := by
    rw [← chunkBatches_flatten (emailsToVerifyOf leads d1)]
    exact List.mem_flatten.mpr ⟨b, hb', heb⟩
  obtain ⟨lead, hlead, rfl⟩ := List.mem_map.mp hpend
  have hm := List.mem_filter.mp hlead
  simpa using hm.2

/-! ## Helper lemmas: store keys and the lead map -/

lemma subperm_cons_both {α : Type} (a : α) {l₁ l₂ : List α}
    (h : l₁.Subperm l₂) : (a :: l₁).Subperm (a :: l₂) := by
  obtain ⟨w, hp, hs⟩ := h
  exact ⟨a :: w, hp.cons a, hs.cons₂ a⟩

lemma subperm_nodup {α : Type} {l₁ l₂ : List α}
    (h : l₁.Subperm l₂) (h2 : l₂.Nodup) : l₁.Nodup := by
  obtain ⟨w, hp, hs⟩ := h
  exact hp.nodup_iff.mp (hs.nodup h2)

lemma appendToJsonFile_eq (st : Option (List Lead)) (e : Lead) :
    appendToJsonFile st e = st.getD [] ++ [e] := by
  cases st <;> rfl

lemma getAlready_eq (disk : Disk) :
    getAlreadyVerifiedEmails disk =
      (disk.validFile.getD []).map (fun l => lowerStr l.email) ++
      (disk.invalidFile.getD []).map (fun l => lowerStr l.email) := by
  unfold getAlreadyVerifiedEmails
  exact List.map_append _ _ _

lemma getAlready_taskInfo (disk : Disk) (x : Option TaskCheckpoint) :
    getAlreadyVerifiedEmails { disk with taskInfoFile := x } =
      getAlreadyVerifiedEmails disk := rfl

lemma mapSet_keyOk {m : LeadMap} {k : String} {v : Lead}
    (hm : ∀ p ∈ m, lowerStr p.2.email = p.1) (hv : lowerStr v.email = k) :
    ∀ p ∈ mapSet m k v, lowerStr p.2.email = p.1 := by
  intro p hp
  unfold mapSet at hp
  by_cases hc : m.any (fun q => q.1 = k) = true
  · rw [if_pos (by simpa using hc)] at hp
    obtain ⟨q, hq, hpq⟩ := List.mem_map.mp hp
    by_cases hqk : q.1 = k
    · rw [if_pos hqk] at hpq
      rw [← hpq]
      exact hv
    · rw [if_neg hqk] at hpq
      rw [← hpq]
      exact hm q hq
  · rw [if_neg (by simpa using hc)] at hp
    rcases List.mem_append.mp hp with h | h
    · exact hm p h
    · rw [List.mem_singleton.mp h]
      exact hv

lemma buildMainLeadMap_keyOk_aux : ∀ (ls : List Lead) (m : LeadMap),
    (∀ p ∈ m, lowerStr p.2.email = p.1) →
    ∀ p ∈ ls.foldl (fun acc lead => mapSet acc (lowerStr lead.email) lead) m,
      lowerStr p.2.email = p.1 := by
  intro ls
  induction ls with
  | nil => intro m hm; exact hm
  | cons a t ih =>
      intro m hm
      exact ih _ (mapSet_keyOk hm rfl)

lemma buildMainLeadMap_keyOk (ls : List Lead) :
    ∀ p ∈ buildMainLeadMap ls, lowerStr p.2.email = p.1 :=
  buildMainLeadMap_keyOk_aux ls [] (by intro p hp; simp at hp)

lemma mapGet_keyOk {m : LeadMap} {k : String} {v : Lead}
    (hm : ∀ p ∈ m, lowerStr p.2.email = p.1) (h : mapGet m k = some v) :
    lowerStr v.email = k := by
  unfold mapGet at h
  cases hf : m.find? (fun p => p.1 = k) with
  | none => rw [hf] at h; simp at h
  | some q =>
      rw [hf] at h
      simp at h
      have h1 : q.1 = k := by simpa using List.find?_some hf
      have h2 : q ∈ m := List.mem_of_find?_eq_some hf
      subst h
      rw [hm q h2]
      exact h1

/-! ## Helper lemmas: what classification appends -/

lemma saveResults_spec (m : LeadMap) (hm : ∀ p ∈ m, lowerStr p.2.email = p.1) :
    ∀ (rs : List (String × VerificationResult)) (disk : Disk),
    ∃ av ai : List Lead,
      (saveResults rs m disk).validFile.getD [] = disk.validFile.getD [] ++ av ∧
      (saveResults rs m disk).invalidFile.getD [] = disk.invalidFile.getD [] ++ ai ∧
      ((av ++ ai).map (fun l => lowerStr l.email)).Subperm
        (rs.map (fun p => lowerStr p.1)) := by
  intro rs
  induction rs with
  | nil =>
      intro disk
      exact ⟨[], [], by simp [saveResults_nil], by simp [saveResults_nil], by simp⟩
  | cons p rest ih =>
      intro disk
      rw [saveResults_cons]
      cases hg : mapGet m (lowerStr p.1) with
      | none =>
          have hsave : saveOne m disk p = disk := by
            unfold saveOne
            rw [hg]
          rw [hsave]
          obtain ⟨av, ai, h1, h2, h3⟩ := ih disk
          exact ⟨av, ai, h1, h2, h3.cons_right _⟩
      | some lead =>
          have hkey : lowerStr lead.email = lowerStr p.1 := mapGet_keyOk hm hg
          by_cases hv : isEmailValid p.2 = true
          · have hsave : saveOne m disk p =
                { disk with validFile := some (appendToJsonFile disk.validFile lead) } := by
              unfold saveOne
              rw [hg]
              simp [hv]
            rw [hsave]
            obtain ⟨av, ai, h1, h2, h3⟩ := ih
              { disk with validFile := some (appendToJsonFile disk.validFile lead) }
            refine ⟨lead :: av, ai, ?_, ?_, ?_⟩
            · rw [h1]
              simp [appendToJsonFile_eq]
            · rw [h2]
            · simp only [List.cons_append, List.map_cons, List.map_cons, hkey]
              exact subperm_cons_both _ h3
          · simp only [Bool.not_eq_true] at hv
            have hsave : saveOne m disk p =
                { disk with invalidFile := some (appendToJsonFile disk.invalidFile lead) } := by
              unfold saveOne
              rw [hg]
              simp [hv]
            rw [hsave]
            obtain ⟨av, ai, h1, h2, h3⟩ := ih
              { disk with invalidFile := some (appendToJsonFile disk.invalidFile lead) }
            refine ⟨av, lead :: ai, ?_, ?_, ?_⟩
            · rw [h1]
            · rw [h2]
              simp [appendToJsonFile_eq]
            · have hperm : ((av ++ lead :: ai).map (fun l => lowerStr l.email)).Perm
                  (lowerStr p.1 :: (av ++ ai).map (fun l => lowerStr l.email)) := by
                rw [List.map_append, List.map_cons, hkey, List.map_append]
                exact List.perm_middle
              exact hperm.subperm.trans (subperm_cons_both _ h3)

/-- The batch loop preserves distinctness of the combined store keys,
provided the remaining batches are key-distinct, disjoint from the stores,
and the service only reports keys of the submitted batch. -/
lemma batchLoop_storeOk (oracle : ApiOracle) (m : LeadMap)
    (hm : ∀ p ∈ m, lowerStr p.2.email = p.1) (total : Nat) :
    ∀ (bs : List (List String)) (i : Nat) (disk : Disk),
    (getAlreadyVerifiedEmails disk).Nodup →
    ((bs.flatten).map lowerStr).Nodup →
    (∀ e ∈ bs.flatten, lowerStr e ∉ getAlreadyVerifiedEmails disk) →
    (∀ k pd, k < bs.length → pollTaskResults (oracle.pollTrace (i + k)) = some pd →
      ((pd.results.map (fun p => lowerStr p.1)).Nodup ∧
       ∀ p ∈ pd.results, lowerStr p.1 ∈ (bs.getD k []).map lowerStr)) →
    (getAlreadyVerifiedEmails (batchLoop oracle m total bs i disk).1).Nodup ∧
    (∀ x ∈ getAlreadyVerifiedEmails (batchLoop oracle m total bs i disk).1,
      x ∈ getAlreadyVerifiedEmails disk ∨ x ∈ (bs.flatten).map lowerStr) := by
  intro bs
  induction bs with
  | nil =>
      intro i disk h1 _ _ _
      exact ⟨h1, fun x hx => Or.inl hx⟩
  | cons b rest ih =>
      intro i disk h1 h2 h3 h4
      have h2app := h2
      rw [List.flatten_cons, List.map_append] at h2app
      have h2' : ((rest.flatten).map lowerStr).Nodup := (List.nodup_append.mp h2app).2.1
      have hdisjBR : ∀ x ∈ b.map lowerStr, x ∉ (rest.flatten).map lowerStr :=
        fun x hx hx' => (List.nodup_append.mp h2app).2.2 hx hx'
      have h3rest : ∀ e ∈ rest.flatten, lowerStr e ∉ getAlreadyVerifiedEmails disk :=
        fun e he => h3 e (by rw [List.flatten_cons]; exact List.mem_append_right _ he)
      have h3b : ∀ e ∈ b, lowerStr e ∉ getAlreadyVerifiedEmails disk :=
        fun e he => h3 e (by rw [List.flatten_cons]; exact List.mem_append_left _ he)
      have h4rest : ∀ k pd, k < rest.length →
          pollTaskResults (oracle.pollTrace (i + 1 + k)) = some pd →
          ((pd.results.map (fun p => lowerStr p.1)).Nodup ∧
           ∀ p ∈ pd.results, lowerStr p.1 ∈ (rest.getD k []).map lowerStr) := by
        intro k pd hk hpoll
        have hstep := h4 (k + 1) pd (by simpa using Nat.succ_lt_succ hk)
          (by rw [show i + (k + 1) = i + 1 + k by omega]; exact hpoll)
        simpa using hstep
      have hmemR : ∀ x, x ∈ ((rest.flatten).map lowerStr) →
          x ∈ (((b :: rest).flatten).map lowerStr) := by
        intro x hx
        rw [List.flatten_cons, List.map_append]
        exact List.mem_append_right _ hx
      have hmemB : ∀ x, x ∈ b.map lowerStr →
          x ∈ (((b :: rest).flatten).map lowerStr) := by
        intro x hx
        rw [List.flatten_cons, List.map_append]
        exact List.mem_append_left _ hx
      cases hc : oracle.createResp i with
      | none =>
          simp only [batchLoop, hc]
          have hres := ih (i + 1) disk h1 h2' h3rest h4rest
          exact ⟨hres.1, fun x hx =>
            (hres.2 x hx).elim Or.inl (fun hr => Or.inr (hmemR x hr))⟩
      | some r =>
          cases hp : pollTaskResults (oracle.pollTrace i) with
          | none =>
              simp only [batchLoop, hc, hp]
              have hres := ih (i + 1)
                { disk with taskInfoFile := some (saveTaskInfo r.task_id b i total) }
                h1 h2' h3rest h4rest
              exact ⟨hres.1, fun x hx =>
                (hres.2 x hx).elim Or.inl (fun hr => Or.inr (hmemR x hr))⟩
          | some results =>
              simp only [batchLoop, hc, hp]
              have hstep0 := h4 0 results (Nat.succ_pos _) (by simpa using hp)
              have hndR : ((results.results.map (fun p => lowerStr p.1))).Nodup := hstep0.1
              have hsubR : ∀ p ∈ results.results, lowerStr p.1 ∈ b.map lowerStr := by
                intro p hpm
                simpa using hstep0.2 p hpm
              obtain ⟨av, ai, hva, hia, hsp⟩ := saveResults_spec m hm results.results
                { disk with taskInfoFile := some (saveTaskInfo r.task_id b i total) }
              have haddB : ∀ x ∈ (av ++ ai).map (fun l => lowerStr l.email),
                  x ∈ b.map lowerStr := by
                intro x hx
                obtain ⟨p, hpmem, rfl⟩ := List.mem_map.mp (hsp.subset hx)
                exact hsubR p hpmem
              have haddNd : ((av ++ ai).map (fun l => lowerStr l.email)).Nodup :=
                subperm_nodup hsp hndR
              have hkeys2 : getAlreadyVerifiedEmails
                  (saveResults results.results m
                    { disk with taskInfoFile := some (saveTaskInfo r.task_id b i total) }) =
                  ((disk.validFile.getD []).map (fun l => lowerStr l.email) ++
                    av.map (fun l => lowerStr l.email)) ++
                  ((disk.invalidFile.getD []).map (fun l => lowerStr l.email) ++
                    ai.map (fun l => lowerStr l.email)) := by
                rw [getAlready_eq, hva, hia]
                simp [List.map_append]
              have hperm : (getAlreadyVerifiedEmails
                  (saveResults results.results m
                    { disk with taskInfoFile := some (saveTaskInfo r.task_id b i total) })).Perm
                  (getAlreadyVerifiedEmails disk ++
                    (av ++ ai).map (fun l => lowerStr l.email)) := by
                rw [hkeys2, getAlready_eq, List.map_append]
                refine List.perm_iff_count.mpr ?_
                intro a
                simp only [List.count_append]
                omega
              have hnd2 : (getAlreadyVerifiedEmails
                  (saveResults results.results m
                    { disk with taskInfoFile := some (saveTaskInfo r.task_id b i total) })).Nodup := by
                rw [hperm.nodup_iff, List.nodup_append]
                refine ⟨h1, haddNd, ?_⟩
                intro x hxold hxadd
                obtain ⟨e, heb, rfl⟩ := List.mem_map.mp (haddB x hxadd)
                exact h3b e heb hxold
              have hmem2 : ∀ x ∈ getAlreadyVerifiedEmails
                  (saveResults results.results m
                    { disk with taskInfoFile := some (saveTaskInfo r.task_id b i total) }),
                  x ∈ getAlreadyVerifiedEmails disk ∨ x ∈ b.map lowerStr := by
                intro x hx
                rcases List.mem_append.mp (hperm.mem_iff.mp hx) with h | h
                · exact Or.inl h
                · exact Or.inr (haddB x h)
              have hres := ih (i + 1)
                (saveResults results.results m
                  { disk with taskInfoFile := some (saveTaskInfo r.task_id b i total) })
                hnd2 h2'
                (by
                  intro e he hkey
                  rcases hmem2 _ hkey with hold | hbk
                  · exact h3rest e he hold
                  · exact hdisjBR _ hbk (List.mem_map_of_mem _ he))
                h4rest
              refine ⟨hres.1, fun x hx => ?_⟩
              rcases hres.2 x hx with hd | hr
              · rcases hmem2 x hd with hold | hbk
                · exact Or.inl hold
                · exact Or.inr (hmemB x hbk)
              · exact Or.inr (hmemR x hr)

/-- One complete run preserves the store-key distinctness invariant and ends
with no checkpoint, for inputs with pairwise distinct normalized emails and
runs that start checkpoint-free against a well-behaved service. -/
lemma storeOk_run (leads : List Lead) (oracle : ApiOracle) (disk0 : Disk)
    (hleads : (leads.map (fun l => lowerStr l.email)).Nodup)
    (hdisk : (getAlreadyVerifiedEmails disk0).Nodup)
    (htask : disk0.taskInfoFile = none)
    (hsane : SaneOracle leads disk0 oracle) :
    (getAlreadyVerifiedEmails (processEmails leads oracle disk0).disk).Nodup ∧
    (processEmails leads oracle disk0).disk.taskInfoFile = none := by
  have h1 := resumePhase_none leads oracle.probeTrace htask
  rw [processEmails_proceed h1]
  by_cases he : (unverifiedLeadsOf leads disk0).isEmpty = true
  · rw [if_pos he]
    exact ⟨hdisk, htask⟩
  · rw [if_neg he]
    have hpkeys : ((emailsToVerifyOf leads disk0).map lowerStr).Nodup := by
      have hsub : (emailsToVerifyOf leads disk0).Sublist (leads.map (fun l => l.email)) := by
        unfold emailsToVerifyOf unverifiedLeadsOf
        exact (List.filter_sublist leads).map _
      refine (hsub.map lowerStr).nodup ?_
      rw [List.map_map]
      exact hleads
    have hflat := chunkBatches_flatten (emailsToVerifyOf leads disk0)
    have h2 : (((chunkBatches (emailsToVerifyOf leads disk0)).flatten).map lowerStr).Nodup := by
      rw [hflat]
      exact hpkeys
    have h3 : ∀ e ∈ (chunkBatches (emailsToVerifyOf leads disk0)).flatten,
        lowerStr e ∉ getAlreadyVerifiedEmails disk0 := by
      rw [hflat]
      intro e he
      obtain ⟨lead, hlead, rfl⟩ := List.mem_map.mp he
      have hf := (List.mem_filter.mp hlead).2
      simpa using hf
    have h4 : ∀ k pd, k < ((chunkBatches (emailsToVerifyOf leads disk0)).drop 0).length →
        pollTaskResults (oracle.pollTrace (0 + k)) = some pd →
        ((pd.results.map (fun p => lowerStr p.1)).Nodup ∧
         ∀ p ∈ pd.results, lowerStr p.1 ∈
           (((chunkBatches (emailsToVerifyOf leads disk0)).drop 0).getD k []).map lowerStr) := by
      intro k pd hk hpoll
      rw [List.drop_zero] at hk ⊢
      exact hsane k pd hk (by simpa using hpoll)
    have hres := batchLoop_storeOk oracle (buildMainLeadMap (unverifiedLeadsOf leads disk0))
      (buildMainLeadMap_keyOk _) (chunkBatches (emailsToVerifyOf leads disk0)).length
      ((chunkBatches (emailsToVerifyOf leads disk0)).drop 0) 0 disk0
      hdisk (by rw [List.drop_zero]; exact h2) (by rw [List.drop_zero]; exact h3) h4
    exact ⟨hres.1, rfl⟩

/-- Any sequence of complete runs preserves the invariant. -/
lemma storeOk_runSequence (leads : List Lead)
    (hleads : (leads.map (fun l => lowerStr l.email)).Nodup) :
    ∀ (oracles : List ApiOracle) (disk0 : Disk),
    (getAlreadyVerifiedEmails disk0).Nodup → disk0.taskInfoFile = none →
    SaneAll leads oracles disk0 →
    (getAlreadyVerifiedEmails (runSequence leads oracles disk0)).Nodup ∧
    (runSequence leads oracles disk0).taskInfoFile = none := by
  intro oracles
  induction oracles with
  | nil => intro disk0 hd ht _; exact ⟨hd, ht⟩
  | cons o os ih =>
      intro disk0 hd ht hs
      obtain ⟨hs1, hs2⟩ := hs
      have hrun := storeOk_run leads o disk0 hleads hd ht hs1
      exact ih _ hrun.1 hrun.2 hs2

/-! ## The claims -/

/-- C6: `isEmailValid` marks a verdict valid iff none of the six fields
carries its explicit negative value — `is_valid_syntax`, `is_deliverable`,
`is_safe_to_send` are not `false` and `is_disposable`, `is_spamtrap`,
`is_disabled` are not `true`; consequently `{is_valid_syntax: false}` is
invalid regardless of the other fields, and the empty verdict `{}` (all
fields absent) is valid. -/
theorem claim_C6 :
    (∀ r : VerificationResult, isEmailValid r = true ↔
      (r.is_valid_syntax ≠ some false ∧ r.is_deliverable ≠ some false ∧
       r.is_disposable ≠ some true ∧ r.is_spamtrap ≠ some true ∧
       r.is_disabled ≠ some true ∧ r.is_safe_to_send ≠ some false))
    ∧ (∀ r : VerificationResult, r.is_valid_syntax = some false →
        isEmailValid r = false)
    ∧ isEmailValid {} = true := by
  refine ⟨?_, ?_, rfl⟩
  · intro r
    simp [isEmailValid]
    tauto
  · intro r h
    simp [isEmailValid, h]

/-- Witness for C6 at a concrete verdict with an explicit syntax failure. -/
theorem claim_C6_witness : isEmailValid c6Verdict = false :=
  claim_C6.2.1 c6Verdict rfl

/-- C7: `cleanEmailList` keeps exactly the syntactically valid emails, one
per trimmed-lowercased key (the first occurrence, in original order and
casing: the kept list agrees with the spec-side `keepFirstSpec` comparand on
the valid sublist and is a sublist of the input), rejects the rest, and on
`["a@b.com","A@B.com","not-an-email","c@d.com"]` submits
`["a@b.com","c@d.com"]` with `duplicateCount = 1` and `invalidCount = 1`. -/
theorem claim_C7 :
    (∀ l : List String,
      (cleanEmailList l).validEmails =
          keepFirstSpec (l.filter (fun e => isValidEmailFormat (normKey e)))
        ∧ ((cleanEmailList l).validEmails).Sublist l
        ∧ (cleanEmailList l).invalidEmails =
            l.filter (fun e => !isValidEmailFormat (normKey e))
        ∧ (cleanEmailList l).invalidCount =
            (l.filter (fun e => !isValidEmailFormat (normKey e))).length)
    ∧ (cleanEmailList ["a@b.com", "A@B.com", "not-an-email", "c@d.com"]).validEmails
        = ["a@b.com", "c@d.com"]
    ∧ (cleanEmailList ["a@b.com", "A@B.com", "not-an-email", "c@d.com"]).duplicateCount
        = 1
    ∧ (cleanEmailList ["a@b.com", "A@B.com", "not-an-email", "c@d.com"]).invalidCount
        = 1 := by
  refine ⟨?_, by decide, by decide, by decide⟩
  intro l
  refine ⟨cleanEmailList_validEmails l, cleanEmailList_sublist l, cleanGo_snd l [], ?_⟩
  show ((cleanGo l []).2).length = _
  rw [cleanGo_snd]

/-- C9: batching partitions the pending email list into consecutive batches
preserving order (flattening the batches gives the list back); a 250-element
list yields exactly three batches of sizes 100, 100, 50; and the batch loop
visits the batches strictly in index order — its `createTask` payload
sequence is the batch sequence itself, cleaned, in order (the loop is a
single sequential recursion, so no two batches are ever in flight at once). -/
theorem claim_C9 :
    (∀ l : List String, (chunkBatches l).flatten = l)
    ∧ (∀ l : List String, l.length = 250 →
        (chunkBatches l).map List.length = [100, 100, 50])
    ∧ (∀ (oracle : ApiOracle) (leadMap : LeadMap) (total : Nat)
        (bs : List (List String)) (i : Nat) (disk : Disk),
        createPayloads (batchLoop oracle leadMap total bs i disk).2 =
          bs.map (fun b => (cleanEmailList b).validEmails)) := by
  refine ⟨chunkBatches_flatten, ?_, batchLoop_payloads⟩
  intro l hl
  have step : ∀ m : List String, m ≠ [] →
      chunkBatches m = m.take BATCH_SIZE :: chunkBatches (m.drop BATCH_SIZE) := by
    intro m hm
    cases m with
    | nil => simp at hm
    | cons a t => exact chunkBatches_cons a t
  have h1 : l ≠ [] := by
    intro h
    rw [h] at hl
    simp at hl
  rw [step l h1]
  have hd1 : (l.drop BATCH_SIZE).length = 150 := by simp [hl, BATCH_SIZE]
  have h2 : l.drop BATCH_SIZE ≠ [] := by
    intro h
    rw [h] at hd1
    simp at hd1
  rw [step _ h2]
  have hd2 : ((l.drop BATCH_SIZE).drop BATCH_SIZE).length = 50 := by
    simp [BATCH_SIZE]; omega
  have h3 : (l.drop BATCH_SIZE).drop BATCH_SIZE ≠ [] := by
    intro h
    rw [h] at hd2
    simp at hd2
  rw [step _ h3]
  have hd3 : (((l.drop BATCH_SIZE).drop BATCH_SIZE).drop BATCH_SIZE).length = 0 := by
    simp [BATCH_SIZE]; omega
  rw [List.eq_nil_of_length_eq_zero hd3]
  simp only [chunkBatches, List.length_nil, chunkGo_nil, List.map_cons, List.map_nil,
    List.length_take, hd1, hd2, hl]
  norm_num [BATCH_SIZE]

/-- Witness for C9 at a concrete 250-element pending list. -/
theorem claim_C9_witness : (chunkBatches c9Emails).map List.length = [100, 100, 50] :=
  claim_C9.2.1 c9Emails (by simp [c9Emails])

/-- C10: the polling loop returns a result only for a `completed` status; an
`error` or `file_not_found` response makes it return `null`; a transport
error makes it return `null` at once, whatever responses would have followed;
and a window full of non-terminal statuses ends in the timeout `null` — so a
caller can never see a returned result whose status is `processing`. -/
theorem claim_C10 :
    (∀ (rs : List PollResponse) (d : PollData),
        pollTaskResults rs = some d → d.status = "completed")
    ∧ (∀ (d : PollData) (rest : List PollResponse),
        d.status = "error" ∨ d.status = "file_not_found" →
        pollTaskResults (PollResponse.ok d :: rest) = none)
    ∧ (∀ rest : List PollResponse,
        pollTaskResults (PollResponse.transportError :: rest) = none)
    ∧ (∀ rs : List PollResponse,
        (∀ r ∈ rs, ∃ d, r = PollResponse.ok d ∧ d.status ≠ "completed" ∧
          d.status ≠ "error" ∧ d.status ≠ "file_not_found") →
        pollTaskResults rs = none) := by
  refine ⟨fun rs d h => pollTaskResults_some h, ?_, fun rest => rfl, ?_⟩
  · intro d rest h
    have hc : d.status ≠ "completed" := by
      rcases h with h | h <;> rw [h] <;> decide
    simp [pollTaskResults, hc, h]
  · intro rs h
    induction rs with
    | nil => rfl
    | cons r rest ih =>
        obtain ⟨d, rfl, h1, h2, h3⟩ := h r (List.mem_cons_self r rest)
        have htail := ih (fun x hx => h x (List.mem_cons_of_mem _ hx))
        simp [pollTaskResults, h1, h2, h3, htail]

/-- Witness for C10 at a concrete `error` response. -/
theorem claim_C10_witness : pollTaskResults [PollResponse.ok ⟨"error", []⟩] = none :=
  claim_C10.2.1 ⟨"error", []⟩ [] (Or.inl rfl)

/-- C1 (divergence): with a checkpoint in place and a probe that observes
`processing` on every poll of the 30-second window, the probe times out and
returns `null` (`pollTaskResults` returns data only for `completed`), so the
run takes the could-not-reach branch: it deletes the checkpoint and
resubmits the very same address via `createTask`, completing normally —
instead of aborting with the checkpoint intact as the claim (and the
script's own unreachable lines 404-411) intend. -/
theorem claim_C1 :
    c1Disk.taskInfoFile = some ⟨"t1", 0, 1, 1, ["a@b.cd"], "processing"⟩
    ∧ (∀ r ∈ c1Oracle.probeTrace, r = PollResponse.ok ⟨"processing", []⟩)
    ∧ pollTaskResults c1Oracle.probeTrace = none
    ∧ createPayloads (processEmails c1Leads c1Oracle c1Disk).calls = [["a@b.cd"]]
    ∧ (processEmails c1Leads c1Oracle c1Disk).outcome = RunOutcome.doneComplete
    ∧ (processEmails c1Leads c1Oracle c1Disk).disk.taskInfoFile = none := by
  decide

/-- C2: when the resume probe reports the checkpointed task completed, the
run classifies those results through the lead map rebuilt from the
checkpoint's stored email list, deletes the checkpoint, starts the batch
loop at `checkpoint.batchIndex + 1`, and no subsequent `createTask` payload
contains any email already classified at that point (in particular none of
the emails of batches `0..i`, which are in the stores once the checkpoint's
results are saved). -/
theorem claim_C2 (leads : List Lead) (oracle : ApiOracle) (disk0 : Disk)
    (info : TaskCheckpoint) (d : PollData)
    (hinfo : disk0.taskInfoFile = some info)
    (hprobe : pollTaskResults oracle.probeTrace = some d) :
    resumePhase leads oracle.probeTrace disk0 =
      ({ saveResults d.results (buildResumeLeadMap info.emails leads) disk0 with
          taskInfoFile := none },
        [ApiCall.pollResults info.taskId],
        ResumeOutcome.proceed (info.batchIndex + 1))
    ∧ createPayloads (processEmails leads oracle disk0).calls =
        ((chunkBatches (emailsToVerifyOf leads
            { saveResults d.results (buildResumeLeadMap info.emails leads) disk0 with
              taskInfoFile := none })).drop (info.batchIndex + 1)).map
          (fun b => (cleanEmailList b).validEmails)
    ∧ ∀ es ∈ createPayloads (processEmails leads oracle disk0).calls, ∀ e ∈ es,
        (getAlreadyVerifiedEmails
          { saveResults d.results (buildResumeLeadMap info.emails leads) disk0 with
            taskInfoFile := none }).contains (lowerStr e) = false := by
  have h1 := resumePhase_completed leads oracle.probeTrace hinfo hprobe
  have h2 := run_payloads h1 (createPayloads_poll _)
  refine ⟨h1, h2, ?_⟩
  intro es hes e he
  rw [h2] at hes
  exact payload_mem_pending hes he

/-- Witness for C2 at the concrete resume scenario. -/
theorem claim_C2_witness :
    resumePhase c2Leads c2Oracle.probeTrace c2Disk =
      ({ saveResults c2Data.results (buildResumeLeadMap c2Info.emails c2Leads) c2Disk with
          taskInfoFile := none },
        [ApiCall.pollResults c2Info.taskId],
        ResumeOutcome.proceed (c2Info.batchIndex + 1)) :=
  (claim_C2 c2Leads c2Oracle c2Disk c2Info c2Data rfl rfl).1

/-- C3 counterexample: the probe fails (transport error) on a checkpoint
recorded at batch index 1; the fresh partition has exactly one batch, yet
the run issues no `createTask` at all — it resumed at index 1, not at
index 0 as the claim states (resuming at 0 would have submitted the single
pending batch). -/
theorem claim_C3_counterexample :
    c3Disk.taskInfoFile = some c3Info
    ∧ pollTaskResults c3Oracle.probeTrace = none
    ∧ chunkBatches (emailsToVerifyOf c3Leads { c3Disk with taskInfoFile := none })
        = [["a@b.cd"]]
    ∧ createPayloads (processEmails c3Leads c3Oracle c3Disk).calls = []
    ∧ (processEmails c3Leads c3Oracle c3Disk).outcome = RunOutcome.doneComplete := by
  decide

/-- C3 (amended): when the probe of an existing checkpoint fails, the run
deletes the checkpoint and resumes at batch index `checkpoint.batchIndex` of
the freshly computed partition — not at index 0 (line 366 sets the resume
index before the probe and the could-not-reach branch never resets it), so
the first `checkpoint.batchIndex` fresh batches are skipped for this run. -/
theorem claim_C3 (leads : List Lead) (oracle : ApiOracle) (disk0 : Disk)
    (info : TaskCheckpoint)
    (hinfo : disk0.taskInfoFile = some info)
    (hprobe : pollTaskResults oracle.probeTrace = none) :
    resumePhase leads oracle.probeTrace disk0 =
      ({ disk0 with taskInfoFile := none }, [ApiCall.pollResults info.taskId],
        ResumeOutcome.proceed info.batchIndex)
    ∧ createPayloads (processEmails leads oracle disk0).calls =
        ((chunkBatches (emailsToVerifyOf leads { disk0 with taskInfoFile := none })).drop
          info.batchIndex).map (fun b => (cleanEmailList b).validEmails) := by
  have h1 := resumePhase_failed leads oracle.probeTrace hinfo hprobe
  exact ⟨h1, run_payloads h1 (createPayloads_poll _)⟩

/-- Witness for C3 at the concrete failed-probe scenario. -/
theorem claim_C3_witness :
    resumePhase c3Leads c3Oracle.probeTrace c3Disk =
      ({ c3Disk with taskInfoFile := none }, [ApiCall.pollResults c3Info.taskId],
        ResumeOutcome.proceed c3Info.batchIndex) :=
  (claim_C3 c3Leads c3Oracle c3Disk c3Info rfl rfl).1

/-- C4 counterexample: batch 0 submits successfully and its poll fails, yet
the finished run leaves no checkpoint behind — the disk is exactly as it
started (nothing classified, `task-info.json` absent), because the
end-of-run clean-up (lines 536-538) removes the checkpoint unconditionally.
The claim's "remains on disk when the run ends" is false. -/
theorem claim_C4_counterexample :
    c4Oracle.createResp 0 = some ⟨"t1", 0, 0⟩
    ∧ pollTaskResults (c4Oracle.pollTrace 0) = none
    ∧ (processEmails c4Leads c4Oracle {}).disk = ({} : Disk)
    ∧ (processEmails c4Leads c4Oracle {}).outcome = RunOutcome.doneComplete := by
  decide

/-- C4 (amended): inside the batch loop a poll failure leaves the freshly
written checkpoint in place (it would survive a crash and is only replaced
by a later batch's successful submission, never deleted by the loop); but
every run that does not abort performs the unconditional final clean-up, so
no checkpoint — stale or not — survives a completed run. -/
theorem claim_C4 :
    (∀ (oracle : ApiOracle) (m : LeadMap) (total : Nat) (b : List String)
        (i : Nat) (disk : Disk) (r : CreateTaskResponse),
        oracle.createResp i = some r →
        pollTaskResults (oracle.pollTrace i) = none →
        (batchLoop oracle m total [b] i disk).1.taskInfoFile =
          some (saveTaskInfo r.task_id b i total))
    ∧ (∀ (oracle : ApiOracle) (m : LeadMap) (total : Nat) (bs : List (List String))
        (i : Nat) (disk : Disk),
        disk.taskInfoFile.isSome = true →
        ((batchLoop oracle m total bs i disk).1.taskInfoFile).isSome = true)
    ∧ (∀ (leads : List Lead) (oracle : ApiOracle) (disk0 : Disk),
        (processEmails leads oracle disk0).outcome ≠ RunOutcome.abortedStillProcessing →
        (processEmails leads oracle disk0).disk.taskInfoFile = none) := by
  refine ⟨?_, ?_, ?_⟩
  · intro oracle m total b i disk r hc hp
    simp [batchLoop, hc, hp]
  · intro oracle m total bs
    induction bs with
    | nil => intro i disk h; simpa [batchLoop] using h
    | cons b rest ih =>
        intro i disk h
        cases hc : oracle.createResp i with
        | none => simpa [batchLoop, hc] using ih (i + 1) disk h
        | some r =>
            cases hp : pollTaskResults (oracle.pollTrace i) with
            | none =>
                simp only [batchLoop, hc, hp]
                exact ih (i + 1) _ rfl
            | some results =>
                simp only [batchLoop, hc, hp]
                apply ih (i + 1)
                rw [saveResults_taskInfo]
                rfl
  · intro leads oracle disk0 hout
    rcases hr : resumePhase leads oracle.probeTrace disk0 with ⟨d1, rc, ro⟩
    cases ro with
    | abort =>
        have : processEmails leads oracle disk0 =
            { disk := d1, calls := rc, outcome := RunOutcome.abortedStillProcessing } := by
          unfold processEmails
          rw [hr]
        rw [this] at hout
        simp at hout
    | proceed k =>
        rw [processEmails_proceed hr]
        by_cases he : (unverifiedLeadsOf leads d1).isEmpty = true
        · rw [if_pos he]
          exact resumePhase_proceed_taskInfo hr
        · rw [if_neg he]

/-- Witness for C4 at a concrete one-batch loop with a failing poll. -/
theorem claim_C4_witness :
    (batchLoop c4wOracle [] 1 [["a@b.cd"]] 0 ({} : Disk)).1.taskInfoFile =
      some (saveTaskInfo "t9" ["a@b.cd"] 0 1) :=
  claim_C4.1 c4wOracle [] 1 ["a@b.cd"] 0 {} ⟨"t9", 0, 0⟩ rfl rfl

/-- C8 counterexample: with every lead already classified, the run does
terminate successfully without touching the verification endpoints, but it
still makes one API call — the unconditional `checkAccountBalance` `GET`
(line 421 runs before the pending check), so "zero API calls" is false. -/
theorem claim_C8_counterexample :
    unverifiedLeadsOf c8Leads c8Disk = []
    ∧ (processEmails c8Leads c8Oracle c8Disk).outcome = RunOutcome.doneAllVerified
    ∧ (processEmails c8Leads c8Oracle c8Disk).calls = [ApiCall.balance]
    ∧ (processEmails c8Leads c8Oracle c8Disk).calls ≠ [] := by
  decide

/-- C8 (amended): on an input whose every lead is already classified (and
with no checkpoint pending), a run terminates successfully having made no
`createTask` and no polling call; its only API contact is the single
unconditional best-effort balance check. -/
theorem claim_C8 (leads : List Lead) (oracle : ApiOracle) (disk0 : Disk)
    (htask : disk0.taskInfoFile = none)
    (hall : ∀ lead ∈ leads,
      (getAlreadyVerifiedEmails disk0).contains (lowerStr lead.email) = true) :
    processEmails leads oracle disk0 =
      { disk := disk0, calls := [ApiCall.balance],
        outcome := RunOutcome.doneAllVerified } := by
  have h1 := resumePhase_none leads oracle.probeTrace htask
  rw [processEmails_proceed h1]
  have he : (unverifiedLeadsOf leads disk0).isEmpty = true := by
    rw [List.isEmpty_iff]
    unfold unverifiedLeadsOf
    refine List.filter_eq_nil_iff.mpr ?_
    intro lead hl
    have hmem := hall lead hl
    simp at hmem ⊢
    exact hmem
  rw [if_pos he]
  simp

/-- Witness for C8 at the concrete all-verified scenario. -/
theorem claim_C8_witness :
    processEmails c8Leads c8Oracle c8Disk =
      { disk := c8Disk, calls := [ApiCall.balance],
        outcome := RunOutcome.doneAllVerified } :=
  claim_C8 c8Leads c8Oracle c8Disk rfl (by decide)

/-- C5 counterexample: the input repeats `dup@x.yz` at positions 0 and 100,
so its two lead copies fall into different batches of the same run; the
service answers each batch with exactly the submitted emails and all-passing
verdicts, yet the finished run's valid store contains the `dup@x.yz` lead
twice — the per-run filter and lead map do not prevent reclassification
across batches, so "never more than once within either store" is false. -/
theorem claim_C5_counterexample :
    c5Leads.countP (fun l => l.email = dupEmail) = 2
    ∧ ((processEmails c5Leads c5Oracle {}).disk.validFile.getD []).countP
        (fun l => l.email = dupEmail) = 2 := by
  decide

/-- C5 (amended): provided the input leads carry pairwise distinct
lowercased emails, the runs start without a checkpoint, and the service only
ever reports each completed batch's own submitted emails (each at most
once), every sequence of complete runs preserves the partition invariant:
the combined store key list stays duplicate-free — an email is in at most
one of the two stores and at most once there — and each classified results
entry is appended to exactly one of the two stores, as `isEmailValid`
decides. -/
theorem claim_C5 (leads : List Lead) (oracles : List ApiOracle) (disk0 : Disk)
    (hleads : (leads.map (fun l => lowerStr l.email)).Nodup)
    (hdisk : StoreOk disk0) (htask : disk0.taskInfoFile = none)
    (hsane : SaneAll leads oracles disk0) :
    StoreOk (runSequence leads oracles disk0)
    ∧ (runSequence leads oracles disk0).taskInfoFile = none
    ∧ (∀ (email : String) (r : VerificationResult) (m : LeadMap) (disk : Disk)
        (lead : Lead),
        mapGet m (lowerStr email) = some lead →
        saveResults [(email, r)] m disk =
          (if isEmailValid r then
            { disk with validFile := some (appendToJsonFile disk.validFile lead) }
          else
            { disk with invalidFile := some (appendToJsonFile disk.invalidFile lead) })) := by
  have h := storeOk_runSequence leads hleads oracles disk0 hdisk htask hsane
  refine ⟨h.1, h.2, ?_⟩
  intro email r m disk lead hg
  rw [saveResults_cons, saveResults_nil]
  unfold saveOne
  simp only []
  rw [hg]

/-- Witness for C5: a single sane run over one lead, starting from empty
stores. -/
theorem claim_C5_witness :
    StoreOk (runSequence c5wLeads [c5wOracle] {})
    ∧ (runSequence c5wLeads [c5wOracle] {}).taskInfoFile = none := by
  have hsane : SaneAll c5wLeads [c5wOracle] ({} : Disk) := by
    refine ⟨?_, trivial⟩
    intro j pd hj hpoll
    cases j with
    | zero =>
        have hred : pollTaskResults (c5wOracle.pollTrace 0) = some c5wData := rfl
        rw [hred] at hpoll
        rw [← Option.some.inj hpoll]
        decide
    | succ n =>
        have hlen : (chunkBatches (emailsToVerifyOf c5wLeads ({} : Disk))).length = 1 := by
          decide
        rw [hlen] at hj
        omega
  have h := claim_C5 c5wLeads [c5wOracle] {} (by decide)
    (by show (getAlreadyVerifiedEmails {}).Nodup; decide) rfl hsane
  exact ⟨h.1, h.2.1⟩

end EmailVerifier
